import Mathlib

/-!
Verification of `bevy_hectic_utils` (src/crate/bevy_hectic_utils/src/lib.rs).

A hash map is embedded as its entry list with pairwise-distinct keys; the
enumeration provided by `strum::IntoEnumIterator` is embedded as the explicit
list of keys it yields.  `validate_hash_map`, the map-building expansion of the
`ns_hashmap!` literal, the `validate_hash_map!` wrapper, and the test helpers
`Times` / `measure_time` are each translated below next to a reference to the
lines of the source they come from.
-/

namespace HUtils

/-- Embedding of `HashMap<K, V>` (`bevy_utils::hashbrown::HashMap`, and
equally `std::collections::HashMap`): the list of key-value entries, with the
hash-map invariant that keys are pairwise distinct. -/
structure HashMap (K : Type) (V : Type) where
  entries : List (K × V)
  nodup_keys : (entries.map Prod.fst).Nodup

variable {K V : Type} [DecidableEq K]

/-- `HashMap::len()`. -/
def HashMap.len (m : HashMap K V) : Nat := m.entries.length

/-- `HashMap::contains_key(&k)`. -/
def HashMap.contains_key (m : HashMap K V) (k : K) : Bool :=
  m.entries.any (fun e => decide (e.1 = k))

/-- Spec-level membership: the map has an entry whose key is `k`. -/
def HashMap.hasKey (m : HashMap K V) (k : K) : Prop :=
  k ∈ m.entries.map Prod.fst

instance (m : HashMap K V) (k : K) : Decidable (m.hasKey k) :=
  inferInstanceAs (Decidable (k ∈ m.entries.map Prod.fst))

/-- `HashMap::new()`. -/
def HashMap.empty : HashMap K V := ⟨[], List.nodup_nil⟩

/-- lib.rs lines 59-76, `validate_hash_map`: collect the key enumeration,
compare its length with the map's entry count (returning `false` on mismatch),
then scan every enumerated key for membership (returning `false` on the first
miss), and otherwise return `true`.  The enumeration `K::iter()` is passed
explicitly as the list `iter`. -/
def validate_hash_map (m : HashMap K V) (iter : List K) : Bool :=
  let all_keys := iter
  if m.len ≠ all_keys.length then false
  else all_keys.all (fun key => m.contains_key key)

theorem contains_key_eq_true_iff (m : HashMap K V) (k : K) :
    m.contains_key k = true ↔ m.hasKey k := by
  simp [HashMap.contains_key, HashMap.hasKey, List.any_eq_true, List.mem_map]

theorem validate_hash_map_eq_true_iff (m : HashMap K V) (iter : List K) :
    validate_hash_map m iter = true ↔
      m.len = iter.length ∧ ∀ k ∈ iter, m.hasKey k := by
  unfold validate_hash_map
  by_cases h : m.len = iter.length
  · simp [h, List.all_eq_true, contains_key_eq_true_iff]
  · simp [h]

/-- If the (duplicate-free) enumeration misses some key of the map, the
validator rejects: were it to accept, the enumeration would be a subpermutation
of the map's key list of equal length, hence a permutation, and the extra key
would lie in the enumeration after all. -/
theorem validate_hash_map_eq_false_of_extra_key (m : HashMap K V) (iter : List K)
    (hnodup : iter.Nodup) (k : K) (hk : m.hasKey k) (hout : k ∉ iter) :
    validate_hash_map m iter = false := by
  rw [Bool.eq_false_iff]
  intro hval
  obtain ⟨hlen, hmem⟩ := (validate_hash_map_eq_true_iff m iter).1 hval
  have hsub : iter ⊆ m.entries.map Prod.fst := fun a ha => hmem a ha
  have hsp : iter.Subperm (m.entries.map Prod.fst) := hnodup.subperm hsub
  have hperm : iter.Perm (m.entries.map Prod.fst) := by
    refine hsp.perm_of_length_le ?_
    have : (m.entries.map Prod.fst).length = m.len := by
      simp [HashMap.len]
    omega
  exact hout (hperm.mem_iff.2 hk)

/-- `HashMap::insert(k, v)` with the standard overwrite semantics: if `k` is
already a key, its entry's value is replaced; otherwise the entry `(k, v)` is
added. -/
def HashMap.insert (m : HashMap K V) (k : K) (v : V) : HashMap K V :=
  if hmem : m.hasKey k then
    ⟨m.entries.map (fun e => if e.1 = k then (e.1, v) else e), by
      have hkeys : (m.entries.map (fun e => if e.1 = k then (e.1, v) else e)).map Prod.fst
          = m.entries.map Prod.fst := by
        rw [List.map_map]
        refine List.map_congr_left ?_
        intro a _
        by_cases h : a.1 = k <;> simp [h]
      rw [hkeys]
      exact m.nodup_keys⟩
  else
    ⟨m.entries ++ [(k, v)], by
      rw [List.map_append]
      refine List.Nodup.append m.nodup_keys (by simp) ?_
      intro a ha hb
      simp at hb
      subst hb
      exact hmem ha⟩

/-- `HashMap::get(&k)`: the value of the entry with key `k`, when present. -/
def HashMap.get (m : HashMap K V) (k : K) : Option V :=
  (m.entries.find? (fun e => decide (e.1 = k))).map Prod.snd

/-- lib.rs lines 157-166, expansion of the `ns_hashmap!` literal on a pair
list: start from `HashMap::new()` and `insert` each pair in order.  (The
`hashmap!` literal at lines 193-202 expands to the very same insertion
sequence, but spells the map type `std::hashmap::HashMap`, a path that does
not exist in the standard library.) -/
def ns_hashmap (pairs : List (K × V)) : HashMap K V :=
  pairs.foldl (fun map p => map.insert p.1 p.2) HashMap.empty

/-- Outcome of running a code fragment that may abort. -/
inductive Outcome : Type where
  | ok : Outcome
  | panicked : Outcome
deriving DecidableEq

/-- lib.rs lines 124-130, expansion of the `validate_hash_map!` wrapper:
`assert!(validate_hash_map(m))`, which aborts exactly when the predicate
returns `false` and carries no payload either way. -/
def validate_hash_map_assertion (m : HashMap K V) (iter : List K) : Outcome :=
  if validate_hash_map m iter then Outcome.ok else Outcome.panicked

/-- Embedding of a borrowing call `validate_hash_map(&m)`: the call produces
the boolean verdict and hands the (unmodified) map back to the caller. -/
def validate_hash_map_call (m : HashMap K V) (iter : List K) : Bool × HashMap K V :=
  (validate_hash_map m iter, m)

/-- lib.rs lines 206-212, `pub struct Times(u64)`; the `u64` payload is
modelled as a natural number below `2^64`. -/
structure Times : Type where
  val : Nat
deriving DecidableEq

/-- lib.rs lines 276-281, `impl Default for Times`. -/
def Times.default : Times := ⟨100000⟩

/-- `impl Into<u32> for Times`: `self.0 as u32`, i.e. reduction mod `2^32`. -/
def Times.into_u32 (t : Times) : Nat := t.val % 2 ^ 32

/-- `self.0 as i32`: two's-complement reduction of the `u64` payload to a
signed 32-bit integer. -/
def Times.into_i32 (t : Times) : Int :=
  if t.val % 2 ^ 32 < 2 ^ 31 then ((t.val % 2 ^ 32 : Nat) : Int)
  else ((t.val % 2 ^ 32 : Nat) : Int) - 2 ^ 32

/-- Number of iterations of `for _ in 0..times.clone().into()` in
`measure_time`.  The call target of that `into()` is ambiguous among the four
`Into` impls of `Times`, so Rust's integer-literal fallback resolves the range
type to `i32`: the bound is `self.0 as i32`, and a range with a non-positive
upper bound runs zero times. -/
def loopCount (t : Times) : Nat := t.into_i32.toNat

/-- lib.rs lines 310-320, the loop of `measure_time`: the world `W` carries
the state the side-effecting `predicate` acts on (including the monotonic
clock), and this is the world after the loop has run. -/
def measure_time_world {W : Type} (predicate : W → W) (t : Times) (w0 : W) : W :=
  predicate^[loopCount t] w0

/-- lib.rs lines 310-320, `measure_time`: read `Instant::now()` (the function
`clock` gives the monotonic time, in nanoseconds, of a world), run `predicate`
for each element of `0..times.clone().into()`, take the elapsed time, and
divide it by `times.into::<u32>()`.  `Duration` division is floor division on
nanoseconds and panics (here: `none`) on a zero divisor. -/
def measure_time {W : Type} (predicate : W → W) (clock : W → Nat) (t : Times)
    (w0 : W) : Option Nat :=
  let start := clock w0
  let w1 := measure_time_world predicate t w0
  let global_duration := clock w1 - start
  if t.into_u32 = 0 then none else some (global_duration / t.into_u32)

/-- A four-member key type used to instantiate the theorems below. -/
inductive Fruit : Type where
  | a : Fruit
  | b : Fruit
  | c : Fruit
  | d : Fruit
deriving DecidableEq

/-- The enumeration of the first three `Fruit` members. -/
def fruitIterABC : List Fruit := [Fruit.a, Fruit.b, Fruit.c]

/-- The full enumeration of `Fruit`. -/
def fruitIterAll : List Fruit := [Fruit.a, Fruit.b, Fruit.c, Fruit.d]

/-- A map with one entry per `Fruit` member. -/
def fruitMapAll : HashMap Fruit Nat :=
  ⟨[(Fruit.a, 0), (Fruit.b, 1), (Fruit.c, 2), (Fruit.d, 3)], by decide⟩

/-- A one-entry map whose key is `Fruit.b`. -/
def fruitMapB : HashMap Fruit Nat := ⟨[(Fruit.b, 0)], by decide⟩

/-- A map with keys `a`, `b`, `c` and `d`. -/
def fruitMapABCD : HashMap Fruit Nat :=
  ⟨[(Fruit.a, 1), (Fruit.b, 2), (Fruit.c, 3), (Fruit.d, 4)], by decide⟩

/-- A one-entry map, key `Fruit.a`, value `10`. -/
def fruitMapA10 : HashMap Fruit Nat := ⟨[(Fruit.a, 10)], by decide⟩

/-- A one-entry map, key `Fruit.a`, value `99`. -/
def fruitMapA99 : HashMap Fruit Nat := ⟨[(Fruit.a, 99)], by decide⟩

/-- Claim C1: for an enumeration that yields each of the `n` distinct members
of `K` exactly once, `validate_hash_map` returns `true` iff the map has
exactly `n` entries and, for every enumerated key, the map contains an entry
with that key; otherwise it returns `false`. -/
theorem validate_hash_map_exact_coverage (K V : Type) [DecidableEq K]
    (iter : List K) (m : HashMap K V)
    (hnodup : iter.Nodup) (hcompl : ∀ k : K, k ∈ iter) :
    validate_hash_map m iter = true ↔
      m.len = iter.length ∧ ∀ k ∈ iter, m.hasKey k :=
  validate_hash_map_eq_true_iff m iter

theorem validate_hash_map_exact_coverage_example :
    validate_hash_map fruitMapAll fruitIterAll = true ↔
      fruitMapAll.len = fruitIterAll.length ∧
        ∀ k ∈ fruitIterAll, fruitMapAll.hasKey k :=
  validate_hash_map_exact_coverage Fruit Nat fruitIterAll fruitMapAll
    (by decide) (fun k => by cases k <;> decide)

/-- Claim C2: when the entry count equals the enumeration count but the map
holds a key outside the (duplicate-free) enumeration, some enumerated key is
missing and `validate_hash_map` returns `false`: the per-key membership scan
detects the miss even though the count comparison passes. -/
theorem validate_hash_map_count_match_extra_key (K V : Type) [DecidableEq K]
    (iter : List K) (m : HashMap K V) (hnodup : iter.Nodup)
    (hlen : m.len = iter.length) (k : K) (hk : m.hasKey k) (hout : k ∉ iter) :
    (∃ k₂ ∈ iter, ¬ m.hasKey k₂) ∧ validate_hash_map m iter = false := by
  have hfalse := validate_hash_map_eq_false_of_extra_key m iter hnodup k hk hout
  refine ⟨?_, hfalse⟩
  by_contra hall
  push_neg at hall
  have htrue : validate_hash_map m iter = true :=
    (validate_hash_map_eq_true_iff m iter).2 ⟨hlen, hall⟩
  rw [htrue] at hfalse
  exact Bool.noConfusion hfalse

theorem validate_hash_map_count_match_extra_key_example :
    (∃ k₂ ∈ [Fruit.a], ¬ fruitMapB.hasKey k₂) ∧
      validate_hash_map fruitMapB [Fruit.a] = false :=
  validate_hash_map_count_match_extra_key Fruit Nat [Fruit.a] fruitMapB
    (by decide) (by decide) Fruit.b (by decide) (by decide)

/-- Claim C3: with a duplicate-free enumeration (the map's keys being unique
by the hash-map invariant), a map holding any key outside the enumeration is
rejected by `validate_hash_map`. -/
theorem validate_hash_map_extra_key_invalid (K V : Type) [DecidableEq K]
    (iter : List K) (m : HashMap K V) (hnodup : iter.Nodup)
    (k : K) (hk : m.hasKey k) (hout : k ∉ iter) :
    validate_hash_map m iter = false :=
  validate_hash_map_eq_false_of_extra_key m iter hnodup k hk hout

theorem validate_hash_map_extra_key_invalid_example :
    validate_hash_map fruitMapABCD fruitIterABC = false :=
  validate_hash_map_extra_key_invalid Fruit Nat fruitIterABC fruitMapABCD
    (by decide) Fruit.d (by decide) (by decide)

/-- Claim C4: an empty key enumeration together with an empty map validates
as `true`. -/
theorem validate_hash_map_empty_valid (K V : Type) [DecidableEq K] :
    validate_hash_map (HashMap.empty : HashMap K V) [] = true := rfl

/-- Claim C5: the map-literal expansion, applied to the pairs
`("apple", 1), ("banana", 2)`, yields a map where lookup of `"apple"` is `1`
and of `"banana"` is `2`, whose entry count is the number of distinct keys
supplied, and in which a later pair with a duplicate key overwrites the
earlier value.  (This is the `ns_hashmap!` expansion; the `hashmap!` expansion
is the same insertion sequence on `std::collections::HashMap` once its broken
`std::hashmap` path is repaired.) -/
theorem ns_hashmap_literal_semantics :
    (ns_hashmap [("apple", 1), ("banana", 2)] : HashMap String Nat).get "apple"
        = some 1 ∧
    (ns_hashmap [("apple", 1), ("banana", 2)] : HashMap String Nat).get "banana"
        = some 2 ∧
    (ns_hashmap [("apple", 1), ("banana", 2)] : HashMap String Nat).len = 2 ∧
    (ns_hashmap [("apple", 1), ("banana", 2), ("apple", 7)] :
        HashMap String Nat).get "apple" = some 7 ∧
    (ns_hashmap [("apple", 1), ("banana", 2), ("apple", 7)] :
        HashMap String Nat).len = 2 := by
  refine ⟨?_, ?_, ?_, ?_, ?_⟩ <;> rfl

/-- Claim C6: the `validate_hash_map!` wrapper aborts exactly when the
predicate returns `false`; when it returns `true` the wrapper completes with
no payload. -/
theorem validate_hash_map_assertion_spec (K V : Type) [DecidableEq K]
    (m : HashMap K V) (iter : List K) :
    (validate_hash_map_assertion m iter = Outcome.panicked ↔
      validate_hash_map m iter = false) ∧
    (validate_hash_map m iter = true →
      validate_hash_map_assertion m iter = Outcome.ok) := by
  cases hb : validate_hash_map m iter <;>
    simp [validate_hash_map_assertion, hb]

/-- Claim C7: the validator is a deterministic read-only predicate: a call
hands the map back unchanged, and a second call on that map returns the same
verdict as the first. -/
theorem validate_hash_map_pure (K V : Type) [DecidableEq K]
    (m : HashMap K V) (iter : List K) :
    (validate_hash_map_call m iter).2 = m ∧
    (validate_hash_map_call (validate_hash_map_call m iter).2 iter).1 =
      (validate_hash_map_call m iter).1 :=
  ⟨rfl, rfl⟩

/-- Claim C9: the verdict depends only on the map's key set: two maps with
identical key sets validate identically, whatever values they store. -/
theorem validate_hash_map_key_set_determined (K V : Type) [DecidableEq K]
    (iter : List K) (m₁ m₂ : HashMap K V)
    (h : ∀ k : K, m₁.hasKey k ↔ m₂.hasKey k) :
    validate_hash_map m₁ iter = validate_hash_map m₂ iter := by
  have hperm : (m₁.entries.map Prod.fst).Perm (m₂.entries.map Prod.fst) :=
    List.perm_of_nodup_nodup_toFinset_eq m₁.nodup_keys m₂.nodup_keys (by
      ext a
      simpa [List.mem_toFinset, HashMap.hasKey] using h a)
  have hlen : m₁.len = m₂.len := by
    simpa [HashMap.len] using hperm.length_eq
  have hiff : validate_hash_map m₁ iter = true ↔
      validate_hash_map m₂ iter = true := by
    rw [validate_hash_map_eq_true_iff, validate_hash_map_eq_true_iff]
    constructor
    · rintro ⟨hl, hm⟩
      exact ⟨hlen.symm.trans hl, fun k hk => (h k).1 (hm k hk)⟩
    · rintro ⟨hl, hm⟩
      exact ⟨hlen.trans hl, fun k hk => (h k).2 (hm k hk)⟩
  cases hb₁ : validate_hash_map m₁ iter <;>
    cases hb₂ : validate_hash_map m₂ iter <;> simp_all

theorem validate_hash_map_key_set_determined_example :
    validate_hash_map fruitMapA10 [Fruit.a] =
      validate_hash_map fruitMapA99 [Fruit.a] :=
  validate_hash_map_key_set_determined Fruit Nat [Fruit.a] fruitMapA10
    fruitMapA99 (fun k => by cases k <;> decide)

/-- Claim C8, amended: for a repeat count `t` with `0 < t < 2^31`,
`measure_time` runs the operation exactly `t` times and returns the total
elapsed duration divided by `t`; the default value of `Times` is `100000`.
(For `t ≥ 2^31` the loop bound, cast to `i32`, is non-positive or wrapped, so
the claim as stated fails there.) -/
theorem measure_time_avg_small (W : Type) (predicate : W → W) (clock : W → Nat)
    (t : Times) (w0 : W) (hpos : 0 < t.val) (hlt : t.val < 2 ^ 31) :
    measure_time_world predicate t w0 = predicate^[t.val] w0 ∧
    measure_time predicate clock t w0 =
      some ((clock (predicate^[t.val] w0) - clock w0) / t.val) ∧
    Times.default.val = 100000 := by
  have h32 : t.val % 2 ^ 32 = t.val := Nat.mod_eq_of_lt (by omega)
  have hloop : loopCount t = t.val := by
    unfold loopCount Times.into_i32
    rw [h32, if_pos hlt]
    simp
  have hu32 : t.into_u32 = t.val := by
    unfold Times.into_u32
    omega
  have hne : t.val ≠ 0 := by omega
  refine ⟨by simp [measure_time_world, hloop], ?_, rfl⟩
  simp [measure_time, measure_time_world, hloop, hu32, hne]

theorem measure_time_avg_small_example :
    measure_time_world Nat.succ (Times.mk 2) 0 = Nat.succ^[2] 0 ∧
    measure_time Nat.succ id (Times.mk 2) 0 =
      some ((id (Nat.succ^[2] 0) - id 0) / 2) ∧
    Times.default.val = 100000 :=
  measure_time_avg_small Nat Nat.succ id (Times.mk 2) 0 (by decide) (by decide)

/-- Claim C8 fails as stated.  At repeat count `2^32` the divisor
`times.into::<u32>()` is `0`, so the division panics instead of returning an
average.  At repeat count `2^31` the loop bound `times.clone().into()`
resolves to `i32` and `2^31 as i32` is negative, so the operation runs zero
times rather than `2^31` times (witnessed by an operation that counts its own
invocations). -/
theorem measure_time_avg_counterexample :
    measure_time Nat.succ (fun _ => 0) (Times.mk (2 ^ 32)) 0 = none ∧
    measure_time_world Nat.succ (Times.mk (2 ^ 31)) 0 = 0 ∧
    measure_time_world Nat.succ (Times.mk (2 ^ 31)) 0 ≠ 2 ^ 31 := by
  decide

/-- Claim C10: with repeat count zero the divisor `times.into::<u32>()` is
zero, and the final `Duration` division panics: `measure_time` has no normal
result. -/
theorem measure_time_zero_none (W : Type) (predicate : W → W)
    (clock : W → Nat) (w0 : W) :
    measure_time predicate clock (Times.mk 0) w0 = none := by
  simp [measure_time, Times.into_u32]

end HUtils
